import Mathlib

/-!
# noisia: the startup/shutdown supervisor of `app/cmd/main.go`

A shallow embedding of `main` and `listenSignals`:

* the flag table of `main` (lines 20-36) and the `app.Config` literal (lines 46-62);
* `main`, the two goroutines it starts and `listenSignals` as a small-step
  interleaving semantics over an explicit state (program counters, the
  `doExit` channel, the signal channel `c`, the cancellation context);
* invariants of the reachable states and the properties of the specification.

Collaborators that live outside `main.go` are parameters of the model:
`config.Validate` is a function argument, `app.Start` is an environment action
that may return any error value at any time, and the delivery of a signal by
the operating system is an environment action as well. A process ends when
`main` returns or calls `os.Exit`, or when SIGINT or SIGTERM arrives while no
`signal.Notify` registration is in place.
-/

namespace Noisia

/-! ## Go values -/

/-- A Go value of type `error`: `none` is `nil`, `some m` is an error whose
`Error()` text is `m`. -/
abbrev GoError := Option String

/-- The text `fmt` produces for the verb `%s` applied to an `error` operand:
the `Error()` text, and `%!s(<nil>)` for a nil interface value. -/
def fmtS : GoError → String
  | some m => m
  | none => "%!s(<nil>)"

/-- The two signals `listenSignals` registers for (line 87). -/
inductive Signal
  | SIGINT
  | SIGTERM
deriving DecidableEq, Repr

/-- Text of `syscall.Signal.String()` for the two signals. -/
def Signal.text : Signal → String
  | .SIGINT => "interrupt"
  | .SIGTERM => "terminated"

/-- Value returned by `listenSignals` (line 88): `fmt.Errorf("got %s", sig)`. -/
def signalEvent (sig : Signal) : GoError :=
  some ("got " ++ sig.text)

/-! ## The flag table (lines 20-36) -/

/-- One `kingpin.Flag(name, help).Default(..).Envar(..)` declaration. -/
structure FlagDecl where
  name : String
  help : String
  dflt : Option String
  envar : Option String
deriving DecidableEq, Repr

/-- The seventeen flag declarations of `main`, in source order. -/
def flagDecls : List FlagDecl :=
  [ ⟨"version", "show version and exit", none, none⟩,
    ⟨"log-level", "set log level: debug, info, warn, error", some "info", some "NOISIA_LOG_LEVEL"⟩,
    ⟨"cleanup", "do cleanup of workloads related tables from database", some "false",
      some "NOISIA_CLEANUP"⟩,
    ⟨"conninfo", "Postgres connection string (DSN or URL), must be specified explicitly", some "",
      some "NOISIA_POSTGRES_CONNINFO"⟩,
    ⟨"jobs", "Run workload with specified number of workers", some "1", some "NOISIA_JOBS"⟩,
    ⟨"idle-xacts", "Run idle transactions workload", some "false", some "NOISIA_IDLE_XACTS"⟩,
    ⟨"idle-xacts.naptime-min", "Min transactions naptime, in seconds", some "5",
      some "NOISIA_IDLE_XACTS_NAPTIME_MIN"⟩,
    ⟨"idle-xacts.naptime-max", "Max transactions naptime, in seconds", some "20",
      some "NOISIA_IDLE_XACTS_NAPTIME_MAX"⟩,
    ⟨"rollbacks", "Run rollbacks workload", some "false", some "NOISIA_ROLLBACKS"⟩,
    ⟨"rollbacks.rate", "Number of transactions per second (per worker)", some "10",
      some "NOISIA_ROLLBACKS_RATE"⟩,
    ⟨"wait-xacts", "Run idle transactions workload", some "false", some "NOISIA_IDLE_XACTS"⟩,
    ⟨"wait-xacts.locktime-min", "Min transactions locking time, in seconds", some "5",
      some "NOISIA_WAIT_XACTS_LOCKTIME_MIN"⟩,
    ⟨"wait-xacts.locktime-max", "Max transactions locking time, in seconds", some "20",
      some "NOISIA_WAIT_XACTS_LOCKTIME_MAX"⟩,
    ⟨"deadlocks", "Run deadlocks workload", some "false", some "NOISIA_DEADLOCKS"⟩,
    ⟨"temp-files", "Run temp-files workload", some "false", some "NOISIA_TEMP_FILES"⟩,
    ⟨"temp-files.rate", "Number of queries per second (per worker)", some "10",
      some "NOISIA_TEMP_FILES_RATE"⟩,
    ⟨"temp-files.scale-factor", "Test data multiplier, 1 = 1000 rows", some "10",
      some "NOISIA_TEMP_FILES_SCALE_FACTOR"⟩ ]

/-- The `app.Config` field each flag is copied into by the literal of lines
46-62 (`version` and `log-level` are not copied into the configuration). -/
def configField : String → Option String
  | "cleanup" => some "DoCleanup"
  | "conninfo" => some "PostgresConninfo"
  | "jobs" => some "Jobs"
  | "idle-xacts" => some "IdleXacts"
  | "idle-xacts.naptime-min" => some "IdleXactsNaptimeMin"
  | "idle-xacts.naptime-max" => some "IdleXactsNaptimeMax"
  | "rollbacks" => some "Rollbacks"
  | "rollbacks.rate" => some "RollbacksRate"
  | "wait-xacts" => some "WaitXacts"
  | "wait-xacts.locktime-min" => some "WaitXactsLocktimeMin"
  | "wait-xacts.locktime-max" => some "WaitXactsLocktimeMax"
  | "deadlocks" => some "Deadlocks"
  | "temp-files" => some "TempFiles"
  | "temp-files.rate" => some "TempFilesRate"
  | "temp-files.scale-factor" => some "TempFilesScaleFactor"
  | _ => none

/-- Association-list lookup, first binding wins. -/
def lookup (k : String) : List (String × String) → Option String
  | [] => none
  | (k', v) :: rest => if k' = k then some v else lookup k rest

/-- The raw text kingpin resolves for a flag: the command-line value when the
flag was given, otherwise the value of its environment variable when that is
set to a non-empty text (an empty variable counts as unset), otherwise the
declared default. -/
def flagValue (d : FlagDecl) (args env : List (String × String)) : Option String :=
  match lookup d.name args with
  | some v => some v
  | none =>
    match d.envar.bind (fun e => lookup e env) with
    | some v => if v = "" then d.dflt else some v
    | none => d.dflt

/-- The declaration of the flag called `name`, if any. -/
def findFlag (name : String) : Option FlagDecl :=
  flagDecls.find? (fun d => d.name = name)

/-- The configuration fields whose flag is bound to environment variable `v`. -/
def envBound (v : String) : List String :=
  (flagDecls.filter (fun d => d.envar = some v)).filterMap (fun d => configField d.name)

/-- The environment-variable names of the table, in source order. -/
def envarNames : List String :=
  flagDecls.filterMap (fun d => d.envar)

/-- Upper-case an ASCII letter and turn the separators `-` and `.` into `_`. -/
def envChar (c : Char) : Char :=
  if c = '-' ∨ c = '.' then '_' else c.toUpper

/-- The naming scheme every other declaration of the table follows:
`NOISIA_` followed by the flag name in upper case with `_` separators. -/
def schemeName (name : String) : String :=
  "NOISIA_" ++ String.mk (name.data.map envChar)

/-! ## Parsed flags and the configuration literal (lines 46-62) -/

/-- The values behind the seventeen flag pointers once `kingpin.Parse()` has
returned (line 38). `jobs` is a `uint16`, the `Int` flags are Go `int`s. -/
structure Flags where
  showVersion : Bool
  logLevel : String
  doCleanup : Bool
  postgresConninfo : String
  jobs : Nat
  idleXacts : Bool
  idleXactsNaptimeMin : Int
  idleXactsNaptimeMax : Int
  rollbacks : Bool
  rollbacksRate : Int
  waitXacts : Bool
  waitXactsLocktimeMin : Int
  waitXactsLocktimeMax : Int
  deadlocks : Bool
  tempFiles : Bool
  tempFilesRate : Int
  tempFilesScaleFactor : Int
deriving DecidableEq, Repr

/-- The fields of `app.Config` that the literal of lines 46-62 sets. -/
structure Config where
  DoCleanup : Bool
  PostgresConninfo : String
  Jobs : Nat
  IdleXacts : Bool
  IdleXactsNaptimeMin : Int
  IdleXactsNaptimeMax : Int
  Rollbacks : Bool
  RollbacksRate : Int
  WaitXacts : Bool
  WaitXactsLocktimeMin : Int
  WaitXactsLocktimeMax : Int
  Deadlocks : Bool
  TempFiles : Bool
  TempFilesRate : Int
  TempFilesScaleFactor : Int
deriving DecidableEq, Repr

/-- The composite literal `&app.Config{...}` of lines 46-62. -/
def mkConfig (f : Flags) : Config :=
  { DoCleanup := f.doCleanup
    PostgresConninfo := f.postgresConninfo
    Jobs := f.jobs
    IdleXacts := f.idleXacts
    IdleXactsNaptimeMin := f.idleXactsNaptimeMin
    IdleXactsNaptimeMax := f.idleXactsNaptimeMax
    Rollbacks := f.rollbacks
    RollbacksRate := f.rollbacksRate
    WaitXacts := f.waitXacts
    WaitXactsLocktimeMin := f.waitXactsLocktimeMin
    WaitXactsLocktimeMax := f.waitXactsLocktimeMax
    Deadlocks := f.deadlocks
    TempFiles := f.tempFiles
    TempFilesRate := f.tempFilesRate
    TempFilesScaleFactor := f.tempFilesScaleFactor }

/-- What one run of `main` is given: the parsed flags, the three build-time
strings of lines 14-16, and the collaborator `config.Validate` (package `app`,
outside `main.go`), taken as a function returning a Go `error`. -/
structure Program where
  flags : Flags
  appName : String
  gitCommit : String
  gitBranch : String
  validate : Config → GoError

/-! ## The cancellation context -/

/-- The state behind `ctx, cancel := context.WithCancel(context.Background())`:
`err` is nil while the context is live and set once it is cancelled; `closes`
counts how often the `Done` channel has been closed, that is, how often the
context went from live to cancelled (closing a closed channel would fault). -/
structure CancelCtx where
  err : GoError
  closes : Nat
deriving DecidableEq, Repr

/-- The context returned by `context.WithCancel`: live. -/
def CancelCtx.fresh : CancelCtx :=
  { err := none, closes := 0 }

/-- Whether the context has been cancelled. -/
def CancelCtx.cancelled (c : CancelCtx) : Bool :=
  c.err.isSome

/-- Modelled from the spec: the `cancel` function returned by
`context.WithCancel` is library code outside `main.go`. One-shot, idempotent,
non-reversible: the first request sets the error and closes `Done`, every
later request returns without touching the context. -/
def CancelCtx.cancel (c : CancelCtx) : CancelCtx :=
  if c.err.isSome then c
  else { err := some "context canceled", closes := c.closes + 1 }

/-- The context after a sequence of `cancel()` requests, one per list entry. -/
def cancelAll {α : Type} (c : CancelCtx) : List α → CancelCtx
  | [] => c
  | _ :: rest => cancelAll c.cancel rest

/-! ## Program counters -/

/-- The two goroutines started by `main`. -/
inductive Role
  | watcher
  | runner
deriving DecidableEq, Repr, Fintype

/-- Where `main` stands. Each constructor names the statement about to run. -/
inductive MainPc
  /-- Line 39, `log.SetLevel(*logLevel)`, right after `kingpin.Parse()`. -/
  | setLevel
  /-- Lines 41-44, the `--version` branch. -/
  | checkVersion
  /-- Lines 46-67, build the configuration and validate it. -/
  | validate
  /-- Line 69, `context.WithCancel`. -/
  | mkCtx
  /-- Line 71, `make(chan error, 2)`. -/
  | mkChan
  /-- Line 72, the first `go` statement. -/
  | goWatcher
  /-- Line 77, the second `go` statement. -/
  | goRunner
  /-- Line 82, the receive `<-doExit`. -/
  | recv
  /-- Line 82, `log.Warnf("shutdown: %s", ev)` with the received value, then
  the return of `main`. -/
  | report (ev : GoError)
  /-- The process has exited with this status (`os.Exit` or the return of
  `main`). -/
  | exited (code : Nat)
  /-- The process has been ended by this signal, which arrived while no
  registration was in place; there is no exit code, the status is the signal. -/
  | killed (sig : Signal)
deriving DecidableEq, Repr

/-- Where a goroutine started by `main` stands. For the watcher `enter`,
`setup` and `blocked` are lines 86, 87 and 88 of `listenSignals`; for the
runner `enter` is the call of `app.Start` on line 78 and `blocked` is the time
spent inside it (`setup` is not used). `send` and `cancel` are the two
statements of the goroutine body. -/
inductive GoPc
  | idle
  | enter
  | setup
  | blocked
  | send (ev : GoError)
  | cancel
  | done
deriving DecidableEq, Repr

/-- Severity of a message handed to the `log` package. -/
inductive Level
  | error
  | warn
deriving DecidableEq, Repr

/-! ## State and steps -/

/-- The state of one run. The fields after `stdout` are history variables:
they record what happened and are never read by a step. -/
structure State where
  mainPc : MainPc
  watcherPc : GoPc
  runnerPc : GoPc
  /-- The context of line 69, once created. -/
  ctx : Option CancelCtx
  /-- The buffer of `doExit` (capacity 2), oldest first, once created. -/
  doExit : Option (List GoError)
  /-- The buffer of the signal channel `c` (capacity 1), once created. -/
  sigChan : Option (List Signal)
  /-- Whether `signal.Notify` (line 87) has been performed. -/
  registered : Bool
  /-- The level passed to `log.SetLevel`. -/
  level : Option String
  /-- The messages handed to the `log` package, oldest first. -/
  logged : List (Level × String)
  /-- What was printed with `fmt.Printf`. -/
  stdout : List String
  /-- Every send into `doExit`, oldest first, with the sending role. -/
  deposits : List (Role × GoError)
  /-- Every value `main` received from `doExit`, oldest first. -/
  received : List GoError
  /-- Every `cancel()` call, oldest first. -/
  cancelReqs : List Role
  /-- Every signal the operating system delivered, oldest first. -/
  signals : List Signal
  /-- Signals delivered while no registration was in place (the first one
  ends the process). -/
  unhandled : List Signal
  /-- Every value `app.Start` returned. -/
  startResults : List GoError
deriving DecidableEq, Repr

/-- The state right after `kingpin.Parse()` has returned. -/
def State.init : State :=
  { mainPc := .setLevel, watcherPc := .idle, runnerPc := .idle, ctx := none, doExit := none,
    sigChan := none, registered := false, level := none, logged := [], stdout := [],
    deposits := [], received := [], cancelReqs := [], signals := [], unhandled := [],
    startResults := [] }

/-- Capacity of `doExit` (line 71). -/
def doExitCap : Nat := 2

/-- Capacity of the signal channel `c` (line 86). -/
def sigChanCap : Nat := 1

/-- The process is over once `main` has returned or called `os.Exit` (the
goroutines are not waited for), or once an uncaught signal has ended it. -/
def State.halted (s : State) : Bool :=
  match s.mainPc with
  | .exited _ => true
  | .killed _ => true
  | _ => false

/-- How a process that is over has ended: with an exit code, or by a signal. -/
inductive Ending
  | status (code : Nat)
  | signal (sig : Signal)
deriving DecidableEq, Repr

/-- The ending of the process, `none` while it is running. -/
def State.ending (s : State) : Option Ending :=
  match s.mainPc with
  | .exited code => some (.status code)
  | .killed sig => some (.signal sig)
  | _ => none

/-- The pc of a role. -/
@[simp]
def State.pcOf (s : State) : Role → GoPc
  | .watcher => s.watcherPc
  | .runner => s.runnerPc

/-- Set the pc of a role. -/
@[simp]
def State.setPc (s : State) (r : Role) (pc : GoPc) : State :=
  match r with
  | .watcher => { s with watcherPc := pc }
  | .runner => { s with runnerPc := pc }

/-- The buffered contents of `doExit` (empty before it is created). -/
@[simp]
def State.queue (s : State) : List GoError :=
  s.doExit.getD []

/-- Whether the context exists and has been cancelled. -/
def State.ctxCancelled (s : State) : Bool :=
  match s.ctx with
  | some c => c.cancelled
  | none => false

/-- Whether a send into `doExit` would go through without blocking. -/
def State.sendReady (s : State) : Bool :=
  match s.doExit with
  | some q => decide (q.length < doExitCap)
  | none => false

/-- The statement `doExit <- ev` of lines 73 and 78 for role `r`: blocked
while the buffer is full. -/
def sendStep (s : State) (r : Role) (ev : GoError) : Option State :=
  match s.doExit with
  | some q =>
    if q.length < doExitCap then
      some ((({ s with doExit := some (q ++ [ev]), deposits := s.deposits ++ [(r, ev)] } : State)).setPc
        r .cancel)
    else none
  | none => none

/-- The statement `cancel()` of lines 74 and 79 for role `r`. -/
def cancelStep (s : State) (r : Role) : Option State :=
  some ((({ s with ctx := s.ctx.map CancelCtx.cancel, cancelReqs := s.cancelReqs ++ [r] } : State)).setPc
    r .done)

/-- One step of `main`. -/
def stepMain (p : Program) (s : State) : Option State :=
  match s.mainPc with
  | .setLevel => some { s with level := some p.flags.logLevel, mainPc := .checkVersion }
  | .checkVersion =>
    if p.flags.showVersion then
      some { s with
        stdout := s.stdout ++ [p.appName ++ " " ++ p.gitCommit ++ "-" ++ p.gitBranch ++ "\n"],
        mainPc := .exited 0 }
    else some { s with mainPc := .validate }
  | .validate =>
    match p.validate (mkConfig p.flags) with
    | some e => some { s with logged := s.logged ++ [(Level.error, e)], mainPc := .exited 1 }
    | none => some { s with mainPc := .mkCtx }
  | .mkCtx => some { s with ctx := some CancelCtx.fresh, mainPc := .mkChan }
  | .mkChan => some { s with doExit := some [], mainPc := .goWatcher }
  | .goWatcher => some { s with watcherPc := .enter, mainPc := .goRunner }
  | .goRunner => some { s with runnerPc := .enter, mainPc := .recv }
  | .recv =>
    match s.doExit with
    | some (ev :: rest) =>
      some { s with doExit := some rest, received := s.received ++ [ev], mainPc := .report ev }
    | _ => none
  | .report ev =>
    some { s with logged := s.logged ++ [(Level.warn, "shutdown: " ++ fmtS ev)], mainPc := .exited 0 }
  | .exited _ => none
  | .killed _ => none

/-- One step of the first goroutine (lines 72-75) including the body of
`listenSignals` (lines 85-89). -/
def stepWatcher (s : State) : Option State :=
  match s.watcherPc with
  | .idle => none
  | .enter => some { s with sigChan := some [], watcherPc := .setup }
  | .setup => some { s with registered := true, watcherPc := .blocked }
  | .blocked =>
    match s.sigChan with
    | some (sig :: rest) => some { s with sigChan := some rest, watcherPc := .send (signalEvent sig) }
    | _ => none
  | .send ev => sendStep s .watcher ev
  | .cancel => cancelStep s .watcher
  | .done => none

/-- One step of the second goroutine (lines 77-80). While `app.Start` runs
the goroutine has no step of its own. -/
def stepRunner (s : State) : Option State :=
  match s.runnerPc with
  | .idle => none
  | .enter => some { s with runnerPc := .blocked }
  | .setup => none
  | .blocked => none
  | .send ev => sendStep s .runner ev
  | .cancel => cancelStep s .runner
  | .done => none

/-- Environment step: `app.Start` returns `r`. -/
def stepStartReturns (s : State) (r : GoError) : Option State :=
  match s.runnerPc with
  | .blocked => some { s with runnerPc := .send r, startResults := s.startResults ++ [r] }
  | _ => none

/-- Environment step: the operating system delivers `sig`. With the
registration of line 87 in place the signal is put into `c` when there is
room and dropped otherwise (the `signal` package never blocks); without it
the signal is not caught and ends the process. -/
def stepDeliver (s : State) (sig : Signal) : Option State :=
  if s.registered then
    match s.sigChan with
    | some q =>
      if q.length < sigChanCap then
        some { s with sigChan := some (q ++ [sig]), signals := s.signals ++ [sig] }
      else some { s with signals := s.signals ++ [sig] }
    | none => some { s with signals := s.signals ++ [sig] }
  else
    some { s with
      mainPc := .killed sig, signals := s.signals ++ [sig], unhandled := s.unhandled ++ [sig] }

/-- Who moves. -/
inductive Action
  | main
  | watcher
  | runner
  | startReturns (r : GoError)
  | deliver (sig : Signal)
deriving DecidableEq, Repr

/-- One step of the whole process; `none` when the chosen move is blocked or
the process is over. -/
def step (p : Program) (s : State) (a : Action) : Option State :=
  if s.halted then none
  else
    match a with
    | .main => stepMain p s
    | .watcher => stepWatcher s
    | .runner => stepRunner s
    | .startReturns r => stepStartReturns s r
    | .deliver sig => stepDeliver s sig

/-- Run a schedule from a state; `none` as soon as a move is not possible. -/
def runFrom (p : Program) (s : State) : List Action → Option State
  | [] => some s
  | a :: rest =>
    match step p s a with
    | some s' => runFrom p s' rest
    | none => none

/-- Run a schedule from the initial state. -/
def run (p : Program) (sched : List Action) : Option State :=
  runFrom p State.init sched

/-- The states some schedule leads to. -/
inductive Reachable (p : Program) : State → Prop
  | init : Reachable p State.init
  | step {s s' : State} (a : Action) : Reachable p s → step p s a = some s' → Reachable p s'

/-- Default flag values (the `Default(..)` column of the table) with
`--version` not given. -/
def defaultFlags : Flags :=
  { showVersion := false, logLevel := "info", doCleanup := false, postgresConninfo := "",
    jobs := 1, idleXacts := false, idleXactsNaptimeMin := 5, idleXactsNaptimeMax := 20,
    rollbacks := false, rollbacksRate := 10, waitXacts := false, waitXactsLocktimeMin := 5,
    waitXactsLocktimeMax := 20, deadlocks := false, tempFiles := false, tempFilesRate := 10,
    tempFilesScaleFactor := 10 }

/-- A run whose configuration passes validation. -/
def okProgram : Program :=
  { flags := defaultFlags, appName := "noisia", gitCommit := "0000000", gitBranch := "master",
    validate := fun _ => none }

/-- A run whose configuration is rejected with the given text. -/
def badProgram : Program :=
  { flags := defaultFlags, appName := "noisia", gitCommit := "0000000", gitBranch := "master",
    validate := fun _ => some "jobs must be >= 1" }

/-! ## Invariant of the reachable states -/

/-- The goroutine has performed its send into `doExit`. -/
@[simp]
def GoPc.sent : GoPc → Bool
  | .cancel => true
  | .done => true
  | _ => false

/-- Validation succeeded on a run without `--version`. -/
def Program.passes (p : Program) : Prop :=
  p.flags.showVersion = false ∧ p.validate (mkConfig p.flags) = none

/-- What the position of `main` says about the rest of the state. -/
@[simp]
def mainInv (p : Program) (s : State) : Prop :=
  match s.mainPc with
  | .setLevel => s.ctx = none ∧ s.logged = []
  | .checkVersion => s.ctx = none ∧ s.logged = []
  | .validate => s.ctx = none ∧ s.logged = [] ∧ p.flags.showVersion = false
  | .mkCtx => s.ctx = none ∧ s.logged = [] ∧ p.passes
  | .mkChan => s.ctx ≠ none ∧ s.doExit = none ∧ s.logged = [] ∧ p.passes
  | .goWatcher =>
    s.doExit ≠ none ∧ s.watcherPc = .idle ∧ s.received = [] ∧ s.logged = [] ∧ p.passes
  | .goRunner =>
    s.watcherPc ≠ .idle ∧ s.runnerPc = .idle ∧ s.received = [] ∧ s.logged = [] ∧ p.passes
  | .recv => s.runnerPc ≠ .idle ∧ s.received = [] ∧ s.logged = [] ∧ p.passes
  | .report ev => s.runnerPc ≠ .idle ∧ s.received = [ev] ∧ s.logged = [] ∧ p.passes
  | .exited code =>
    (s.ctx = none ∧ code = 0 ∧ p.flags.showVersion = true ∧ s.logged = []) ∨
    (s.ctx = none ∧ code = 1 ∧ p.flags.showVersion = false ∧
      ∃ e, p.validate (mkConfig p.flags) = some e ∧ s.logged = [(Level.error, e)]) ∨
    (s.runnerPc ≠ .idle ∧ code = 0 ∧ p.passes ∧
      ∃ ev, s.received = [ev] ∧ s.logged = [(Level.warn, "shutdown: " ++ fmtS ev)])
  | .killed _ => (s.ctx = none ∨ p.passes) ∧ (s.received = [] ∨ ∃ ev, s.received = [ev])

/-- What the position of the watcher says about the signal channel. -/
@[simp]
def watcherInv (s : State) : Prop :=
  match s.watcherPc with
  | .idle => s.sigChan = none ∧ s.registered = false ∧ s.runnerPc = .idle
  | .enter => s.sigChan = none ∧ s.registered = false
  | .setup => s.sigChan ≠ none ∧ s.registered = false
  | .blocked => s.sigChan ≠ none ∧ s.registered = true
  | .send ev => s.sigChan ≠ none ∧ s.registered = true ∧ ∃ sig, sig ∈ s.signals ∧ ev = signalEvent sig
  | .cancel => s.sigChan ≠ none ∧ s.registered = true
  | .done => s.sigChan ≠ none ∧ s.registered = true

/-- What the position of the runner says about the values `app.Start` returned. -/
@[simp]
def runnerInv (s : State) : Prop :=
  match s.runnerPc with
  | .idle => s.startResults = []
  | .enter => s.startResults = []
  | .setup => False
  | .blocked => s.startResults = []
  | .send ev => s.startResults = [ev]
  | .cancel => True
  | .done => True

/-- The invariant of the reachable states. -/
structure Inv (p : Program) (s : State) : Prop where
  main : mainInv p s
  watcher : watcherInv s
  runner : runnerInv s
  ctxNone : s.ctx = none → s.doExit = none
  chanNone : s.doExit = none →
    s.watcherPc = .idle ∧ s.runnerPc = .idle ∧ s.deposits = [] ∧ s.received = [] ∧
      s.cancelReqs = []
  fifo : s.deposits.map Prod.snd = s.received ++ s.queue
  depNodup : (s.deposits.map Prod.fst).Nodup
  depW : Role.watcher ∈ s.deposits.map Prod.fst ↔ s.watcherPc.sent = true
  depR : Role.runner ∈ s.deposits.map Prod.fst ↔ s.runnerPc.sent = true
  reqNodup : s.cancelReqs.Nodup
  reqW : Role.watcher ∈ s.cancelReqs ↔ s.watcherPc = .done
  reqR : Role.runner ∈ s.cancelReqs ↔ s.runnerPc = .done
  ctxVal : ∀ c, s.ctx = some c → c = cancelAll CancelCtx.fresh s.cancelReqs
  depWatcher : ∀ ev, (Role.watcher, ev) ∈ s.deposits → ∃ sig, sig ∈ s.signals ∧ ev = signalEvent sig
  depRunner : ∀ ev, (Role.runner, ev) ∈ s.deposits → s.startResults = [ev]
  sigBuf : ∀ q, s.sigChan = some q → q.length ≤ sigChanCap ∧ ∀ x, x ∈ q → x ∈ s.signals

/-- The state a schedule leads to, the initial state when it cannot be run. -/
def runD (p : Program) (sched : List Action) : State :=
  (run p sched).getD State.init

/-- The move of a goroutine. -/
def Role.action : Role → Action
  | .watcher => .watcher
  | .runner => .runner

/-- The seven steps of `main` from the start to the receive of line 82. -/
def startup : List Action :=
  [.main, .main, .main, .main, .main, .main, .main]

/-- The workload finishes with nil and no signal arrives: `main` starts both
goroutines, `app.Start` is entered and returns nil, the runner deposits, `main`
receives, reports and returns. -/
def nilSchedule : List Action :=
  startup ++ [.runner, .startReturns none, .runner, .main, .main]

/-- The runner has entered `app.Start` while the watcher goroutine has not
run yet. -/
def earlyRunnerSchedule : List Action :=
  startup ++ [.runner]

/-- A signal wins: the watcher registers, SIGTERM arrives, the watcher
deposits its event and `main` receives it while `app.Start` is still running. -/
def signalSchedule : List Action :=
  startup ++ [.runner, .watcher, .watcher, .deliver .SIGTERM, .watcher, .watcher, .main]

/-- A signal wins and `app.Start` returns while `main` is reporting: `main`
returns and the process is over with the runner standing at its send. -/
def lateRunnerSchedule : List Action :=
  signalSchedule ++ [.startReturns none, .main]

/-- SIGINT arrives when `app.Start` is running and the watcher goroutine has
not yet performed `signal.Notify`. -/
def earlySignalSchedule : List Action :=
  earlyRunnerSchedule ++ [.deliver .SIGINT]

/-- Both roles finish: the runner returns an error and deposits first, then
the signal event is deposited, both call `cancel()`. -/
def bothSchedule : List Action :=
  startup ++ [.runner, .watcher, .watcher, .startReturns (some "connection refused"),
    .deliver .SIGINT, .watcher, .runner, .watcher, .runner, .watcher]

/-! ## Preservation of the invariant -/

theorem cancelAll_append {α : Type} (c : CancelCtx) (l : List α) (x : α) :
    cancelAll c (l ++ [x]) = (cancelAll c l).cancel := by
  induction l generalizing c with
  | nil => rfl
  | cons _ rest ih => simpa [cancelAll] using ih c.cancel

theorem inv_init (p : Program) : Inv p State.init := by
  constructor <;> simp [State.init]

theorem inv_main_setLevel {p : Program} {s : State} (h : Inv p s) (hpc : s.mainPc = .setLevel) :
    Inv p { s with level := some p.flags.logLevel, mainPc := .checkVersion } := by
  obtain ⟨hm, hw, hr, h1, h2, h3, h4, h5, h5', h6, h7, h7', h8, h9, h10, h11⟩ := h
  simp only [mainInv, hpc] at hm
  constructor <;> (try assumption) <;> (try simp_all)

theorem inv_main_version {p : Program} {s : State} (h : Inv p s) (hpc : s.mainPc = .checkVersion)
    (hv : p.flags.showVersion = true) (out : List String) :
    Inv p { s with stdout := out, mainPc := .exited 0 } := by
  obtain ⟨hm, hw, hr, h1, h2, h3, h4, h5, h5', h6, h7, h7', h8, h9, h10, h11⟩ := h
  simp only [mainInv, hpc] at hm
  constructor <;> (try assumption) <;> (try simp_all)

theorem inv_main_noVersion {p : Program} {s : State} (h : Inv p s) (hpc : s.mainPc = .checkVersion)
    (hv : p.flags.showVersion = false) :
    Inv p { s with mainPc := .validate } := by
  obtain ⟨hm, hw, hr, h1, h2, h3, h4, h5, h5', h6, h7, h7', h8, h9, h10, h11⟩ := h
  simp only [mainInv, hpc] at hm
  constructor <;> (try assumption) <;> (try simp_all)

theorem inv_main_invalid {p : Program} {s : State} (h : Inv p s) (hpc : s.mainPc = .validate)
    (e : String) (hv : p.validate (mkConfig p.flags) = some e) :
    Inv p { s with logged := s.logged ++ [(Level.error, e)], mainPc := .exited 1 } := by
  obtain ⟨hm, hw, hr, h1, h2, h3, h4, h5, h5', h6, h7, h7', h8, h9, h10, h11⟩ := h
  simp only [mainInv, hpc] at hm
  constructor <;> (try assumption) <;> (try simp_all)

theorem inv_main_valid {p : Program} {s : State} (h : Inv p s) (hpc : s.mainPc = .validate)
    (hv : p.validate (mkConfig p.flags) = none) :
    Inv p { s with mainPc := .mkCtx } := by
  obtain ⟨hm, hw, hr, h1, h2, h3, h4, h5, h5', h6, h7, h7', h8, h9, h10, h11⟩ := h
  simp only [mainInv, hpc] at hm
  constructor <;> (try assumption) <;> (try simp_all [Program.passes])

theorem inv_main_mkCtx {p : Program} {s : State} (h : Inv p s) (hpc : s.mainPc = .mkCtx) :
    Inv p { s with ctx := some CancelCtx.fresh, mainPc := .mkChan } := by
  obtain ⟨hm, hw, hr, h1, h2, h3, h4, h5, h5', h6, h7, h7', h8, h9, h10, h11⟩ := h
  simp only [mainInv, hpc] at hm
  constructor <;> (try assumption) <;> (try simp_all [cancelAll])

theorem inv_main_mkChan {p : Program} {s : State} (h : Inv p s) (hpc : s.mainPc = .mkChan) :
    Inv p { s with doExit := some [], mainPc := .goWatcher } := by
  obtain ⟨hm, hw, hr, h1, h2, h3, h4, h5, h5', h6, h7, h7', h8, h9, h10, h11⟩ := h
  simp only [mainInv, hpc] at hm
  constructor <;> (try assumption) <;> (try simp_all)

theorem inv_main_goWatcher {p : Program} {s : State} (h : Inv p s) (hpc : s.mainPc = .goWatcher) :
    Inv p { s with watcherPc := .enter, mainPc := .goRunner } := by
  obtain ⟨hm, hw, hr, h1, h2, h3, h4, h5, h5', h6, h7, h7', h8, h9, h10, h11⟩ := h
  simp only [mainInv, hpc] at hm
  constructor <;> (try assumption) <;> (try simp_all)

theorem inv_main_goRunner {p : Program} {s : State} (h : Inv p s) (hpc : s.mainPc = .goRunner) :
    Inv p { s with runnerPc := .enter, mainPc := .recv } := by
  obtain ⟨hm, hw, hr, h1, h2, h3, h4, h5, h5', h6, h7, h7', h8, h9, h10, h11⟩ := h
  simp only [mainInv, hpc] at hm
  constructor <;> (try assumption) <;> (try simp_all)
  cases hwp : s.watcherPc <;> simp_all

theorem inv_main_recv {p : Program} {s : State} (h : Inv p s) (hpc : s.mainPc = .recv)
    (ev : GoError) (rest : List GoError) (hq : s.doExit = some (ev :: rest)) :
    Inv p { s with doExit := some rest, received := s.received ++ [ev], mainPc := .report ev } := by
  obtain ⟨hm, hw, hr, h1, h2, h3, h4, h5, h5', h6, h7, h7', h8, h9, h10, h11⟩ := h
  simp only [mainInv, hpc] at hm
  constructor <;> (try assumption) <;> (try simp_all)

theorem inv_main_report {p : Program} {s : State} (h : Inv p s) (ev : GoError)
    (hpc : s.mainPc = .report ev) :
    Inv p { s with logged := s.logged ++ [(Level.warn, "shutdown: " ++ fmtS ev)],
                   mainPc := .exited 0 } := by
  obtain ⟨hm, hw, hr, h1, h2, h3, h4, h5, h5', h6, h7, h7', h8, h9, h10, h11⟩ := h
  simp only [mainInv, hpc] at hm
  constructor <;> (try assumption) <;> (try simp_all)

theorem inv_stepMain {p : Program} {s s' : State} (h : Inv p s) (hs : stepMain p s = some s') :
    Inv p s' := by
  unfold stepMain at hs
  split at hs
  case h_1 hpc => cases hs; exact inv_main_setLevel h hpc
  case h_2 hpc =>
    split at hs
    case isTrue hv => cases hs; exact inv_main_version h hpc hv _
    case isFalse hv => cases hs; exact inv_main_noVersion h hpc (by simpa using hv)
  case h_3 hpc =>
    split at hs
    case h_1 e hv => cases hs; exact inv_main_invalid h hpc e hv
    case h_2 hv => cases hs; exact inv_main_valid h hpc hv
  case h_4 hpc => cases hs; exact inv_main_mkCtx h hpc
  case h_5 hpc => cases hs; exact inv_main_mkChan h hpc
  case h_6 hpc => cases hs; exact inv_main_goWatcher h hpc
  case h_7 hpc => cases hs; exact inv_main_goRunner h hpc
  case h_8 hpc =>
    split at hs
    case h_1 ev rest hq => cases hs; exact inv_main_recv h hpc ev rest hq
    case h_2 => cases hs
  case h_9 ev hpc => cases hs; exact inv_main_report h ev hpc
  case h_10 => cases hs
  case h_11 => cases hs

theorem inv_watcher_enter {p : Program} {s : State} (h : Inv p s) (hpc : s.watcherPc = .enter) :
    Inv p { s with sigChan := some [], watcherPc := .setup } := by
  obtain ⟨hm, hw, hr, h1, h2, h3, h4, h5, h5', h6, h7, h7', h8, h9, h10, h11⟩ := h
  simp only [watcherInv, hpc] at hw
  constructor <;> (try assumption)
  case main => cases hmp : s.mainPc <;> simp_all
  all_goals simp_all

theorem inv_watcher_setup {p : Program} {s : State} (h : Inv p s) (hpc : s.watcherPc = .setup) :
    Inv p { s with registered := true, watcherPc := .blocked } := by
  obtain ⟨hm, hw, hr, h1, h2, h3, h4, h5, h5', h6, h7, h7', h8, h9, h10, h11⟩ := h
  simp only [watcherInv, hpc] at hw
  constructor <;> (try assumption)
  case main => cases hmp : s.mainPc <;> simp_all
  all_goals simp_all

theorem inv_watcher_blocked {p : Program} {s : State} (h : Inv p s) (hpc : s.watcherPc = .blocked)
    (sig : Signal) (rest : List Signal) (hq : s.sigChan = some (sig :: rest)) :
    Inv p { s with sigChan := some rest, watcherPc := .send (signalEvent sig) } := by
  obtain ⟨hm, hw, hr, h1, h2, h3, h4, h5, h5', h6, h7, h7', h8, h9, h10, h11⟩ := h
  simp only [watcherInv, hpc] at hw
  have hb := h11 _ hq
  constructor <;> (try assumption)
  case main => cases hmp : s.mainPc <;> simp_all
  case watcher =>
    simp only [watcherInv]
    exact ⟨by simp, hw.2, sig, hb.2 sig (by simp), rfl⟩
  case sigBuf =>
    intro q hq'
    simp only [Option.some.injEq] at hq'
    subst hq'
    refine ⟨?_, fun x hx => hb.2 x (List.mem_cons_of_mem _ hx)⟩
    have := hb.1
    simp only [List.length_cons] at this
    omega
  all_goals simp_all

theorem inv_watcher_send {p : Program} {s : State} (h : Inv p s) (ev : GoError)
    (hpc : s.watcherPc = .send ev) (q : List GoError) (hq : s.doExit = some q) :
    Inv p { s with doExit := some (q ++ [ev]), deposits := s.deposits ++ [(Role.watcher, ev)],
                   watcherPc := .cancel } := by
  obtain ⟨hm, hw, hr, h1, h2, h3, h4, h5, h5', h6, h7, h7', h8, h9, h10, h11⟩ := h
  simp only [watcherInv, hpc] at hw
  have hnw : Role.watcher ∉ s.deposits.map Prod.fst := by
    rw [h5, hpc]; simp
  constructor <;> (try assumption)
  case main => cases hmp : s.mainPc <;> simp_all
  case depNodup =>
    simp only [List.map_append, List.map_cons, List.map_nil]
    exact List.Nodup.append h4 (by simp) (by simpa using hnw)
  case depWatcher =>
    intro ev' hev'
    simp only [List.mem_append, List.mem_singleton, Prod.mk.injEq, true_and] at hev'
    rcases hev' with hev' | rfl
    · exact h9 _ hev'
    · exact hw.2.2
  case depRunner =>
    intro ev' hev'
    simp only [List.mem_append, List.mem_singleton, Prod.mk.injEq] at hev'
    rcases hev' with hev' | ⟨hc, _⟩
    · exact h10 _ hev'
    · cases hc
  all_goals (try simp_all)

theorem inv_watcher_cancel {p : Program} {s : State} (h : Inv p s)
    (hpc : s.watcherPc = .cancel) :
    Inv p { s with ctx := s.ctx.map CancelCtx.cancel, cancelReqs := s.cancelReqs ++ [Role.watcher],
                   watcherPc := .done } := by
  obtain ⟨hm, hw, hr, h1, h2, h3, h4, h5, h5', h6, h7, h7', h8, h9, h10, h11⟩ := h
  simp only [watcherInv, hpc] at hw
  have hnw : Role.watcher ∉ s.cancelReqs := by
    rw [h7, hpc]; simp
  constructor <;> (try assumption)
  case main => cases hmp : s.mainPc <;> simp_all
  case reqNodup => exact List.Nodup.append h6 (by simp) (by simpa using hnw)
  case ctxVal =>
    intro c hc
    simp only [Option.map_eq_some'] at hc
    obtain ⟨c0, hc0, rfl⟩ := hc
    rw [cancelAll_append, ← h8 c0 hc0]
  all_goals (try simp_all)

theorem inv_runner_enter {p : Program} {s : State} (h : Inv p s) (hpc : s.runnerPc = .enter) :
    Inv p { s with runnerPc := .blocked } := by
  obtain ⟨hm, hw, hr, h1, h2, h3, h4, h5, h5', h6, h7, h7', h8, h9, h10, h11⟩ := h
  simp only [runnerInv, hpc] at hr
  constructor <;> (try assumption)
  case main => cases hmp : s.mainPc <;> simp_all
  case watcher => cases hwp : s.watcherPc <;> simp_all
  all_goals simp_all

theorem inv_runner_returns {p : Program} {s : State} (h : Inv p s) (hpc : s.runnerPc = .blocked)
    (r : GoError) :
    Inv p { s with runnerPc := .send r, startResults := s.startResults ++ [r] } := by
  obtain ⟨hm, hw, hr, h1, h2, h3, h4, h5, h5', h6, h7, h7', h8, h9, h10, h11⟩ := h
  simp only [runnerInv, hpc] at hr
  have hnr : Role.runner ∉ s.deposits.map Prod.fst := by
    rw [h5', hpc]; simp
  constructor <;> (try assumption)
  case main => cases hmp : s.mainPc <;> simp_all
  case watcher => cases hwp : s.watcherPc <;> simp_all
  case depRunner =>
    intro ev hev
    exact absurd (List.mem_map_of_mem Prod.fst hev) hnr
  all_goals simp_all

theorem inv_runner_send {p : Program} {s : State} (h : Inv p s) (ev : GoError)
    (hpc : s.runnerPc = .send ev) (q : List GoError) (hq : s.doExit = some q) :
    Inv p { s with doExit := some (q ++ [ev]), deposits := s.deposits ++ [(Role.runner, ev)],
                   runnerPc := .cancel } := by
  obtain ⟨hm, hw, hr, h1, h2, h3, h4, h5, h5', h6, h7, h7', h8, h9, h10, h11⟩ := h
  simp only [runnerInv, hpc] at hr
  have hnr : Role.runner ∉ s.deposits.map Prod.fst := by
    rw [h5', hpc]; simp
  constructor <;> (try assumption)
  case main => cases hmp : s.mainPc <;> simp_all
  case watcher => cases hwp : s.watcherPc <;> simp_all
  case depNodup =>
    simp only [List.map_append, List.map_cons, List.map_nil]
    exact List.Nodup.append h4 (by simp) (by simpa using hnr)
  case depWatcher =>
    intro ev' hev'
    simp only [List.mem_append, List.mem_singleton, Prod.mk.injEq] at hev'
    rcases hev' with hev' | ⟨hc, _⟩
    · exact h9 _ hev'
    · cases hc
  case depRunner =>
    intro ev' hev'
    simp only [List.mem_append, List.mem_singleton, Prod.mk.injEq, true_and] at hev'
    rcases hev' with hev' | rfl
    · exact absurd (List.mem_map_of_mem Prod.fst hev') hnr
    · exact hr
  all_goals (try simp_all)

theorem inv_runner_cancel {p : Program} {s : State} (h : Inv p s)
    (hpc : s.runnerPc = .cancel) :
    Inv p { s with ctx := s.ctx.map CancelCtx.cancel, cancelReqs := s.cancelReqs ++ [Role.runner],
                   runnerPc := .done } := by
  obtain ⟨hm, hw, hr, h1, h2, h3, h4, h5, h5', h6, h7, h7', h8, h9, h10, h11⟩ := h
  simp only [runnerInv, hpc] at hr
  have hnr : Role.runner ∉ s.cancelReqs := by
    rw [h7', hpc]; simp
  constructor <;> (try assumption)
  case main => cases hmp : s.mainPc <;> simp_all
  case watcher => cases hwp : s.watcherPc <;> simp_all
  case reqNodup => exact List.Nodup.append h6 (by simp) (by simpa using hnr)
  case ctxVal =>
    intro c hc
    simp only [Option.map_eq_some'] at hc
    obtain ⟨c0, hc0, rfl⟩ := hc
    rw [cancelAll_append, ← h8 c0 hc0]
  all_goals (try simp_all)

theorem inv_deliver_put {p : Program} {s : State} (h : Inv p s) (sig : Signal)
    (q : List Signal) (hq : s.sigChan = some q) (hlen : q.length < sigChanCap) :
    Inv p { s with sigChan := some (q ++ [sig]), signals := s.signals ++ [sig] } := by
  obtain ⟨hm, hw, hr, h1, h2, h3, h4, h5, h5', h6, h7, h7', h8, h9, h10, h11⟩ := h
  have hb := h11 _ hq
  constructor <;> (try assumption)
  case watcher =>
    cases hwp : s.watcherPc <;> simp only [watcherInv, hwp] at hw ⊢ <;>
      (try simp only [hq] at hw) <;> (try simp_all)
    obtain ⟨_, sg, hsg, he⟩ := hw
    exact ⟨sg, Or.inl hsg, he⟩
  case depWatcher =>
    intro ev hev
    obtain ⟨sg, hsg, he⟩ := h9 ev hev
    exact ⟨sg, List.mem_append_left _ hsg, he⟩
  case sigBuf =>
    intro q' hq'
    simp only [Option.some.injEq] at hq'
    subst hq'
    refine ⟨?_, ?_⟩
    · simp only [List.length_append, List.length_singleton]; omega
    · intro x hx
      simp only [List.mem_append, List.mem_singleton] at hx ⊢
      rcases hx with hx | hx
      · exact Or.inl (hb.2 x hx)
      · exact Or.inr hx

theorem inv_deliver_drop {p : Program} {s : State} (h : Inv p s) (sig : Signal)
    (un : List Signal) :
    Inv p { s with signals := s.signals ++ [sig], unhandled := un } := by
  obtain ⟨hm, hw, hr, h1, h2, h3, h4, h5, h5', h6, h7, h7', h8, h9, h10, h11⟩ := h
  constructor <;> (try assumption)
  case watcher =>
    cases hwp : s.watcherPc <;> simp only [watcherInv, hwp] at hw ⊢ <;>
      (try simp only [hq] at hw) <;> (try simp_all)
    obtain ⟨_, _, sg, hsg, he⟩ := hw
    exact ⟨sg, Or.inl hsg, he⟩
  case depWatcher =>
    intro ev hev
    obtain ⟨sg, hsg, he⟩ := h9 ev hev
    exact ⟨sg, List.mem_append_left _ hsg, he⟩
  case sigBuf =>
    intro q' hq'
    exact ⟨(h11 q' hq').1, fun x hx => List.mem_append_left _ ((h11 q' hq').2 x hx)⟩

theorem mainInv_killed {p : Program} {s : State} (h : Inv p s) :
    (s.ctx = none ∨ p.passes) ∧ (s.received = [] ∨ ∃ ev, s.received = [ev]) := by
  have hm := h.main
  have h1 := h.ctxNone
  have h2 := h.chanNone
  cases hmp : s.mainPc <;> simp only [mainInv, hmp] at hm
  case setLevel => exact ⟨Or.inl hm.1, Or.inl (h2 (h1 hm.1)).2.2.2.1⟩
  case checkVersion => exact ⟨Or.inl hm.1, Or.inl (h2 (h1 hm.1)).2.2.2.1⟩
  case validate => exact ⟨Or.inl hm.1, Or.inl (h2 (h1 hm.1)).2.2.2.1⟩
  case mkCtx => exact ⟨Or.inl hm.1, Or.inl (h2 (h1 hm.1)).2.2.2.1⟩
  case mkChan => exact ⟨Or.inr hm.2.2.2, Or.inl (h2 hm.2.1).2.2.2.1⟩
  case goWatcher => exact ⟨Or.inr hm.2.2.2.2, Or.inl hm.2.2.1⟩
  case goRunner => exact ⟨Or.inr hm.2.2.2.2, Or.inl hm.2.2.1⟩
  case recv => exact ⟨Or.inr hm.2.2.2, Or.inl hm.2.1⟩
  case report ev => exact ⟨Or.inr hm.2.2.2, Or.inr ⟨ev, hm.2.1⟩⟩
  case exited code =>
    rcases hm with hm | hm | hm
    · exact ⟨Or.inl hm.1, Or.inl (h2 (h1 hm.1)).2.2.2.1⟩
    · exact ⟨Or.inl hm.1, Or.inl (h2 (h1 hm.1)).2.2.2.1⟩
    · obtain ⟨ev, hev, _⟩ := hm.2.2.2
      exact ⟨Or.inr hm.2.2.1, Or.inr ⟨ev, hev⟩⟩
  case killed sig => exact hm

theorem inv_deliver_kill {p : Program} {s : State} (h : Inv p s) (sig : Signal)
    (un : List Signal) :
    Inv p { s with mainPc := .killed sig, signals := s.signals ++ [sig], unhandled := un } := by
  have hk := mainInv_killed h
  obtain ⟨hm, hw, hr, h1, h2, h3, h4, h5, h5', h6, h7, h7', h8, h9, h10, h11⟩ := h
  constructor <;> (try assumption)
  case watcher =>
    cases hwp : s.watcherPc <;> simp only [watcherInv, hwp] at hw ⊢ <;> (try simp_all)
    obtain ⟨_, _, sg, hsg, he⟩ := hw
    exact ⟨sg, Or.inl hsg, he⟩
  case depWatcher =>
    intro ev hev
    obtain ⟨sg, hsg, he⟩ := h9 ev hev
    exact ⟨sg, List.mem_append_left _ hsg, he⟩
  case sigBuf =>
    intro q' hq'
    exact ⟨(h11 q' hq').1, fun x hx => List.mem_append_left _ ((h11 q' hq').2 x hx)⟩

theorem inv_stepWatcher {p : Program} {s s' : State} (h : Inv p s)
    (hs : stepWatcher s = some s') : Inv p s' := by
  unfold stepWatcher at hs
  split at hs
  case h_1 => cases hs
  case h_2 hpc => cases hs; exact inv_watcher_enter h hpc
  case h_3 hpc => cases hs; exact inv_watcher_setup h hpc
  case h_4 hpc =>
    split at hs
    case h_1 sig rest hq => cases hs; exact inv_watcher_blocked h hpc sig rest hq
    case h_2 => cases hs
  case h_5 ev hpc =>
    unfold sendStep at hs
    split at hs
    case h_1 q hq =>
      split at hs
      · cases hs; exact inv_watcher_send h ev hpc q hq
      · cases hs
    case h_2 => cases hs
  case h_6 hpc => cases hs; exact inv_watcher_cancel h hpc
  case h_7 => cases hs

theorem inv_stepRunner {p : Program} {s s' : State} (h : Inv p s)
    (hs : stepRunner s = some s') : Inv p s' := by
  unfold stepRunner at hs
  split at hs
  case h_1 => cases hs
  case h_2 hpc => cases hs; exact inv_runner_enter h hpc
  case h_3 => cases hs
  case h_4 => cases hs
  case h_5 ev hpc =>
    unfold sendStep at hs
    split at hs
    case h_1 q hq =>
      split at hs
      · cases hs; exact inv_runner_send h ev hpc q hq
      · cases hs
    case h_2 => cases hs
  case h_6 hpc => cases hs; exact inv_runner_cancel h hpc
  case h_7 => cases hs

theorem inv_stepStartReturns {p : Program} {s s' : State} (h : Inv p s) (r : GoError)
    (hs : stepStartReturns s r = some s') : Inv p s' := by
  unfold stepStartReturns at hs
  split at hs
  case h_1 hpc => cases hs; exact inv_runner_returns h hpc r
  case h_2 => cases hs

theorem inv_stepDeliver {p : Program} {s s' : State} (h : Inv p s) (sig : Signal)
    (hs : stepDeliver s sig = some s') : Inv p s' := by
  unfold stepDeliver at hs
  split at hs
  · split at hs
    case h_1 q hq =>
      split at hs
      case isTrue hlen => cases hs; exact inv_deliver_put h sig q hq hlen
      case isFalse => cases hs; exact inv_deliver_drop h sig _
    case h_2 => cases hs; exact inv_deliver_drop h sig _
  · cases hs; exact inv_deliver_kill h sig _

theorem inv_step {p : Program} {s s' : State} (a : Action) (h : Inv p s)
    (hs : step p s a = some s') : Inv p s' := by
  unfold step at hs
  split at hs
  · cases hs
  · cases a with
    | main => exact inv_stepMain h hs
    | watcher => exact inv_stepWatcher h hs
    | runner => exact inv_stepRunner h hs
    | startReturns r => exact inv_stepStartReturns h r hs
    | deliver sig => exact inv_stepDeliver h sig hs

theorem inv_of_reachable {p : Program} {s : State} (h : Reachable p s) : Inv p s := by
  induction h with
  | init => exact inv_init p
  | step a _ hs ih => exact inv_step a ih hs

/-! ## Schedules and reachability -/

theorem reachable_runFrom {p : Program} (sched : List Action) {s s' : State}
    (hs : Reachable p s) (h : runFrom p s sched = some s') : Reachable p s' := by
  induction sched generalizing s with
  | nil =>
    simp only [runFrom, Option.some.injEq] at h
    exact h ▸ hs
  | cons a rest ih =>
    simp only [runFrom] at h
    cases hst : step p s a with
    | none => simp [hst] at h
    | some s1 =>
      simp only [hst] at h
      exact ih (Reachable.step a hs hst) h

theorem reachable_runD (p : Program) (sched : List Action) : Reachable p (runD p sched) := by
  unfold runD run
  cases h : runFrom p State.init sched with
  | none => exact Reachable.init
  | some s => exact reachable_runFrom sched Reachable.init h

/-! ## Consequences of the invariant -/

theorem not_killed_of_running {s : State} (hh : ¬ s.halted = true) (sig : Signal) :
    s.mainPc ≠ .killed sig := by
  intro hk
  simp [State.halted, hk] at hh

theorem kill_unregistered {p : Program} {s : State} (h : Reachable p s) :
    ∀ sig, s.mainPc = .killed sig → s.registered = false ∧ sig ∈ s.unhandled := by
  induction h with
  | init =>
    intro sig hk
    simp [State.init] at hk
  | step a _ hs _ =>
    intro sig hk
    unfold step at hs
    split at hs
    · cases hs
    · rename_i hh
      have hnk := not_killed_of_running hh sig
      cases a with
      | main =>
        simp only [stepMain] at hs
        split at hs
        all_goals (try split at hs)
        all_goals (first | cases hs | skip)
        all_goals simp at hk
      | watcher =>
        simp only [stepWatcher, sendStep, cancelStep] at hs
        split at hs
        all_goals (try split at hs)
        all_goals (try split at hs)
        all_goals (first | cases hs | skip)
        all_goals exact absurd hk hnk
      | runner =>
        simp only [stepRunner, sendStep, cancelStep] at hs
        split at hs
        all_goals (try split at hs)
        all_goals (try split at hs)
        all_goals (first | cases hs | skip)
        all_goals exact absurd hk hnk
      | startReturns r =>
        simp only [stepStartReturns] at hs
        split at hs
        all_goals (first | cases hs | skip)
        all_goals exact absurd hk hnk
      | deliver sg =>
        simp only [stepDeliver] at hs
        split at hs
        · split at hs
          all_goals (try split at hs)
          all_goals (first | cases hs | skip)
          all_goals exact absurd hk hnk
        · rename_i hreg
          cases hs
          simp only [MainPc.killed.injEq] at hk
          subst hk
          exact ⟨by simpa using hreg, by simp⟩

theorem received_cases {p : Program} {s : State} (h : Inv p s) :
    s.received = [] ∨ ∃ ev, s.received = [ev] :=
  (mainInv_killed h).2

theorem ctx_none_of_fails {p : Program} {s : State} (h : Inv p s) (e : String)
    (hv : p.validate (mkConfig p.flags) = some e) : s.ctx = none := by
  rcases (mainInv_killed h).1 with hc | hp
  · exact hc
  · have := hp.2
    simp [hv] at this

theorem role_nodup_length {l : List Role} (h : l.Nodup) : l.length ≤ 2 :=
  h.length_le_card

theorem role_nodup_length_of_not_mem {l : List Role} (h : l.Nodup) (r : Role) (hr : r ∉ l) :
    l.length ≤ 1 := by
  have h2 : (r :: l).Nodup := List.nodup_cons.mpr ⟨hr, h⟩
  have := role_nodup_length h2
  simpa using this

theorem deposits_length {p : Program} {s : State} (h : Inv p s) :
    s.deposits.length = s.received.length + s.queue.length := by
  have := congrArg List.length h.fifo
  simpa using this

theorem pc_send_not_deposited {p : Program} {s : State} (h : Inv p s) (r : Role) (ev : GoError)
    (hpc : s.pcOf r = .send ev) : r ∉ s.deposits.map Prod.fst := by
  cases r with
  | watcher =>
    rw [h.depW]
    simp only [State.pcOf] at hpc
    simp [hpc]
  | runner =>
    rw [h.depR]
    simp only [State.pcOf] at hpc
    simp [hpc]

theorem doExit_some_of_spawned {p : Program} {s : State} (h : Inv p s) (r : Role)
    (hpc : s.pcOf r ≠ .idle) : ∃ q, s.doExit = some q := by
  cases hq : s.doExit with
  | some q => exact ⟨q, rfl⟩
  | none =>
    have := h.chanNone hq
    cases r <;> simp_all

theorem ctx_some_of_doExit {p : Program} {s : State} (h : Inv p s) (q : List GoError)
    (hq : s.doExit = some q) : ∃ c, s.ctx = some c := by
  cases hc : s.ctx with
  | some c => exact ⟨c, rfl⟩
  | none => simp [h.ctxNone hc] at hq

theorem cancelAll_cancelled {α : Type} (c : CancelCtx) (reqs : List α)
    (hc : c.cancelled = true) : cancelAll c reqs = c := by
  induction reqs with
  | nil => rfl
  | cons _ rest ih =>
    have : c.cancel = c := by
      simp only [CancelCtx.cancelled] at hc
      simp [CancelCtx.cancel, hc]
    simp only [cancelAll, this, ih]

theorem cancelAll_fresh_cons {α : Type} (x : α) (reqs : List α) :
    cancelAll CancelCtx.fresh (x :: reqs) = { err := some "context canceled", closes := 1 } := by
  simp only [cancelAll]
  exact cancelAll_cancelled _ _ rfl

theorem ctxCancelled_iff {p : Program} {s : State} (h : Inv p s) :
    s.ctxCancelled = true ↔ s.cancelReqs ≠ [] := by
  cases hc : s.ctx with
  | none =>
    have := (h.chanNone (h.ctxNone hc)).2.2.2.2
    simp [State.ctxCancelled, hc, this]
  | some c =>
    have hv := h.ctxVal c hc
    cases hreq : s.cancelReqs with
    | nil =>
      rw [hreq] at hv
      simp [State.ctxCancelled, hc, hv, cancelAll, CancelCtx.fresh, CancelCtx.cancelled]
    | cons x rest =>
      rw [hreq, cancelAll_fresh_cons] at hv
      simp [State.ctxCancelled, hc, hv, CancelCtx.cancelled]

theorem cancelReq_deposited {p : Program} {s : State} (h : Inv p s) (r : Role)
    (hr : r ∈ s.cancelReqs) : r ∈ s.deposits.map Prod.fst := by
  cases r with
  | watcher =>
    rw [h.depW]
    have := h.reqW.mp hr
    simp [this]
  | runner =>
    rw [h.depR]
    have := h.reqR.mp hr
    simp [this]

/-! ## The claims -/

/-- C1 (validation gate). When `config.Validate()` returns an error, in every
reachable state the context and `doExit` have not been created and neither
goroutine has been started; on a run without `--version` an exit has status 1
with the error handed to `log.Errorln` as the only message, and `main` does
reach that exit, in three steps, after which nothing moves any more. -/
theorem validation_gate (p : Program) (e : String)
    (hv : p.validate (mkConfig p.flags) = some e) :
    (∀ s, Reachable p s →
      s.ctx = none ∧ s.doExit = none ∧ s.watcherPc = .idle ∧ s.runnerPc = .idle ∧
      (p.flags.showVersion = false → ∀ code, s.mainPc = .exited code →
        code = 1 ∧ s.logged = [(Level.error, e)])) ∧
    (p.flags.showVersion = false →
      ∃ s, run p [.main, .main, .main] = some s ∧ s.mainPc = .exited 1 ∧
        s.logged = [(Level.error, e)] ∧ s.ctx = none ∧ s.doExit = none ∧
        s.watcherPc = .idle ∧ s.runnerPc = .idle ∧ ∀ a, step p s a = none) := by
  refine ⟨fun s hr => ?_, fun hver => ?_⟩
  · have h := inv_of_reachable hr
    have hc := ctx_none_of_fails h e hv
    have hd := h.ctxNone hc
    have hi := h.chanNone hd
    refine ⟨hc, hd, hi.1, hi.2.1, fun hver code hpc => ?_⟩
    have hm := h.main
    simp only [mainInv, hpc, Program.passes, hv, hver] at hm
    simp_all
  · simp [run, runFrom, step, stepMain, State.init, State.halted, hv, hver]

/-- Witness for C1: the run whose configuration is rejected with
`jobs must be >= 1`. -/
theorem validation_gate_witness :
    badProgram.validate (mkConfig badProgram.flags) = some "jobs must be >= 1" ∧
    (runD badProgram [.main, .main, .main]).mainPc = .exited 1 ∧
    (runD badProgram [.main, .main, .main]).ctx = none ∧
    (runD badProgram [.main, .main, .main]).runnerPc = .idle :=
  have h := (validation_gate badProgram "jobs must be >= 1" rfl).1
    (runD badProgram [.main, .main, .main]) (reachable_runD _ _)
  ⟨rfl, by decide, h.1, h.2.2.2.1⟩

/-- C2 (first wins). Whenever `main` has received a value from `doExit`, a
deposit has been made, and the value received, reported and logged is the
value of the very first deposit, whichever role made it: the signal event
`got <signal>` when the watcher deposited first, the value returned by
`app.Start` when the runner deposited first. -/
theorem first_wins (p : Program) (s : State) (hr : Reachable p s) :
    (s.received ≠ [] → s.deposits ≠ []) ∧
    ∀ r ev rest, s.deposits = (r, ev) :: rest →
      (∀ ev', ev' ∈ s.received → ev' = ev) ∧
      (∀ ev', s.mainPc = .report ev' → ev' = ev) ∧
      (∀ code, s.mainPc = .exited code →
        s.logged = [(Level.warn, "shutdown: " ++ fmtS ev)]) ∧
      (r = .watcher → ∃ sig, sig ∈ s.signals ∧ ev = signalEvent sig) ∧
      (r = .runner → s.startResults = [ev]) := by
  have h := inv_of_reachable hr
  have hf := h.fifo
  refine ⟨fun hne hd => ?_, fun r ev rest hd => ?_⟩
  · rw [hd] at hf
    simp only [List.map_nil] at hf
    have := List.append_eq_nil.mp hf.symm
    exact hne this.1
  · rw [hd] at hf
    simp only [List.map_cons] at hf
    have hrecv : ∀ ev', s.received = [ev'] → ev' = ev := by
      intro ev' he
      rw [he] at hf
      simp only [List.singleton_append, List.cons.injEq] at hf
      exact hf.1.symm
    have hm := h.main
    refine ⟨?_, ?_, ?_, ?_, ?_⟩
    · intro ev' hmem
      rcases received_cases h with h0 | ⟨x, hx⟩
      · simp [h0] at hmem
      · rw [hx] at hmem
        simp only [List.mem_singleton] at hmem
        exact hmem ▸ hrecv x hx
    · intro ev' hpc
      simp only [mainInv, hpc] at hm
      exact hrecv ev' hm.2.1
    · intro code hpc
      simp only [mainInv, hpc] at hm
      have hdne : s.deposits ≠ [] := by simp [hd]
      rcases hm with hm | hm | hm
      · exact absurd (h.chanNone (h.ctxNone hm.1)).2.2.1 hdne
      · exact absurd (h.chanNone (h.ctxNone hm.1)).2.2.1 hdne
      · obtain ⟨x, hx, hl⟩ := hm.2.2.2
        rw [hl, hrecv x hx]
    · intro hrw
      subst hrw
      exact h.depWatcher ev (by simp [hd])
    · intro hrr
      subst hrr
      exact h.depRunner ev (by simp [hd])

/-- Witness for C2: both roles deposit, the runner first; `main` reports the
runner's value although the signal event was deposited as well. -/
theorem first_wins_witness :
    (runD okProgram (bothSchedule ++ [.main, .main])).deposits =
      [(Role.runner, some "connection refused"), (Role.watcher, some "got interrupt")] ∧
    (runD okProgram (bothSchedule ++ [.main, .main])).logged =
      [(Level.warn, "shutdown: " ++ fmtS (some "connection refused"))] :=
  ⟨by decide,
    ((first_wins okProgram (runD okProgram (bothSchedule ++ [.main, .main]))
      (reachable_runD _ _)).2
      Role.runner (some "connection refused") [(Role.watcher, some "got interrupt")]
      (by decide)).2.2.1 0 (by decide)⟩

/-- Counterexample to C3 as stated: the runner has deposited its event,
`main` has read and reported it and returned, and the context is still live. -/
theorem cancel_before_deposit_counterexample :
    ¬ ∀ s, Reachable okProgram s → s.deposits ≠ [] → s.ctxCancelled = true := by
  intro h
  have := h (runD okProgram nilSchedule) (reachable_runD _ _) (by decide)
  revert this
  decide

/-- C3 as amended: cancellation follows the deposit. The context is cancelled
exactly when some role has called `cancel()`, every role that has called
`cancel()` has deposited its event before, so a cancelled context implies a
deposit already made. -/
theorem cancel_after_deposit (p : Program) (s : State) (hr : Reachable p s) :
    (s.ctxCancelled = true ↔ s.cancelReqs ≠ []) ∧
    (∀ r, r ∈ s.cancelReqs → r ∈ s.deposits.map Prod.fst) ∧
    (s.ctxCancelled = true → s.deposits ≠ []) := by
  have h := inv_of_reachable hr
  refine ⟨ctxCancelled_iff h, fun r hr => cancelReq_deposited h r hr, fun hc hd => ?_⟩
  have hne := (ctxCancelled_iff h).mp hc
  cases hreq : s.cancelReqs with
  | nil => exact hne hreq
  | cons x rest =>
    have := cancelReq_deposited h x (by simp [hreq])
    simp [hd] at this

/-- Witness for C3 as amended: after both roles have cancelled. -/
theorem cancel_after_deposit_witness :
    (runD okProgram bothSchedule).ctxCancelled = true ∧
    (runD okProgram bothSchedule).deposits ≠ [] :=
  ⟨by decide,
    (cancel_after_deposit okProgram (runD okProgram bothSchedule) (reachable_runD _ _)).2.2
      (by decide)⟩

theorem step_recv (p : Program) (s : State) (ev : GoError) (rest : List GoError)
    (hpc : s.mainPc = .recv) (hq : s.doExit = some (ev :: rest)) :
    step p s .main =
      some { s with doExit := some rest, received := s.received ++ [ev], mainPc := .report ev } := by
  simp [step, State.halted, stepMain, hpc, hq]

theorem step_report (p : Program) (s : State) (ev : GoError) (hpc : s.mainPc = .report ev) :
    step p s .main =
      some { s with logged := s.logged ++ [(Level.warn, "shutdown: " ++ fmtS ev)],
                    mainPc := .exited 0 } := by
  simp [step, State.halted, stepMain, hpc]

theorem step_halted (p : Program) (s : State) (code : Nat) (hpc : s.mainPc = .exited code)
    (a : Action) : step p s a = none := by
  simp [step, State.halted, hpc]

theorem cancel_cancelled (c : CancelCtx) : c.cancel.cancelled = true := by
  unfold CancelCtx.cancel CancelCtx.cancelled
  split
  · assumption
  · rfl

theorem step_send (p : Program) (s : State) (r : Role) (ev : GoError) (q : List GoError)
    (hh : s.halted = false) (hpc : s.pcOf r = .send ev) (hq : s.doExit = some q)
    (hql : q.length < doExitCap) :
    step p s r.action =
      some ((({ s with doExit := some (q ++ [ev]), deposits := s.deposits ++ [(r, ev)] } :
        State)).setPc r .cancel) := by
  cases r <;> simp only [State.pcOf] at hpc <;>
    simp [step, hh, Role.action, stepWatcher, stepRunner, hpc, sendStep, hq, hql]

theorem step_cancel (p : Program) (s : State) (r : Role)
    (hh : s.halted = false) (hpc : s.pcOf r = .cancel) :
    step p s r.action =
      some ((({ s with ctx := s.ctx.map CancelCtx.cancel, cancelReqs := s.cancelReqs ++ [r] } :
        State)).setPc r .done) := by
  cases r <;> simp only [State.pcOf] at hpc <;>
    simp [step, hh, Role.action, stepWatcher, stepRunner, hpc, cancelStep]

/-- Counterexample to C4 as stated: a signal wins and `app.Start` returns
while `main` is reporting; `main` returns, the process is over, the runner
stands at its send, no step is possible any more and the runner never calls
`cancel()`. In the nil-workload run the process is over with the runner
between its send and its `cancel()`, and the watcher has not sent at all. -/
theorem producers_reach_cancel_counterexample :
    (¬ ∀ s, Reachable okProgram s → ∀ r ev, s.pcOf r = .send ev →
      ∃ s', step okProgram s r.action = some s') ∧
    (runD okProgram lateRunnerSchedule).mainPc = .exited 0 ∧
    (runD okProgram lateRunnerSchedule).pcOf .runner = .send none ∧
    (runD okProgram lateRunnerSchedule).cancelReqs = [] ∧
    (∀ a, step okProgram (runD okProgram lateRunnerSchedule) a = none) ∧
    (runD okProgram nilSchedule).mainPc = .exited 0 ∧
    (runD okProgram nilSchedule).pcOf .runner = .cancel ∧
    (runD okProgram nilSchedule).deposits = [(Role.runner, none)] ∧
    (runD okProgram nilSchedule).cancelReqs = [] ∧
    (∀ a, step okProgram (runD okProgram nilSchedule) a = none) := by
  refine ⟨fun h => ?_, by decide, by decide, by decide,
    fun a => step_halted okProgram _ 0 (by decide) a, by decide, by decide, by decide,
    by decide, fun a => step_halted okProgram _ 0 (by decide) a⟩
  obtain ⟨s', hs'⟩ := h (runD okProgram lateRunnerSchedule) (reachable_runD _ _) .runner none
    (by decide)
  rw [step_halted okProgram _ 0 (by decide)] at hs'
  cases hs'

/-- C4 as amended (producers never block on deposit). In every reachable
state `doExit` holds at most 2 values, at most two deposits have been made,
at most one per role; whenever a role stands at its send there is room in
`doExit`, wherever `main` stands, and as long as the process is running the
send goes through and puts the role at its `cancel()` call, which goes through
as well and leaves the context cancelled. -/
theorem producers_never_block (p : Program) (s : State) (hr : Reachable p s) :
    s.queue.length ≤ doExitCap ∧
    s.deposits.length ≤ 2 ∧ (s.deposits.map Prod.fst).Nodup ∧
    ∀ r ev, s.pcOf r = .send ev →
      s.sendReady = true ∧
      (s.halted = false →
        ∃ s1 s2, step p s r.action = some s1 ∧ s1.pcOf r = .cancel ∧
          s1.queue = s.queue ++ [ev] ∧ s1.mainPc = s.mainPc ∧
          step p s1 r.action = some s2 ∧ s2.pcOf r = .done ∧ s2.ctxCancelled = true) := by
  have h := inv_of_reachable hr
  have hlen := deposits_length h
  have hdep : s.deposits.length ≤ 2 := by
    have := role_nodup_length h.depNodup
    simpa using this
  refine ⟨by unfold doExitCap; omega, hdep, h.depNodup, fun r ev hpc => ?_⟩
  have hnot := pc_send_not_deposited h r ev hpc
  have h1 : s.deposits.length ≤ 1 := by
    have := role_nodup_length_of_not_mem h.depNodup r hnot
    simpa using this
  obtain ⟨q, hq⟩ := doExit_some_of_spawned h r (by rw [hpc]; simp)
  obtain ⟨c, hc⟩ := ctx_some_of_doExit h q hq
  have hql : q.length < doExitCap := by
    have : s.queue = q := by simp [State.queue, hq]
    rw [this] at hlen
    unfold doExitCap
    omega
  refine ⟨by simp [State.sendReady, hq, hql], fun hh => ?_⟩
  have hh2 : (({ s with doExit := some (q ++ [ev]), deposits := s.deposits ++ [(r, ev)] } :
      State).setPc r .cancel).halted = false := by
    cases r <;> exact hh
  refine ⟨_, _, step_send p s r ev q hh hpc hq hql, ?_, ?_, ?_,
    step_cancel p _ r hh2 ?_, ?_, ?_⟩
  · cases r <;> rfl
  · cases r <;> simp [State.queue, State.setPc, hq]
  · cases r <;> rfl
  · cases r <;> rfl
  · cases r <;> rfl
  · cases r <;> simp [State.ctxCancelled, State.setPc, hc, cancel_cancelled]

/-- Witness for C4: `main` has already received the signal event and stopped
reading while `app.Start` returns; the runner stands at its send, there is
room in `doExit`. -/
theorem producers_never_block_witness :
    (runD okProgram (signalSchedule ++ [.startReturns none])).mainPc =
      .report (some "got terminated") ∧
    (runD okProgram (signalSchedule ++ [.startReturns none])).pcOf .runner = .send none ∧
    (runD okProgram (signalSchedule ++ [.startReturns none])).sendReady = true :=
  ⟨by decide, by decide,
    ((producers_never_block okProgram (runD okProgram (signalSchedule ++ [.startReturns none]))
      (reachable_runD _ _)).2.2.2 .runner none (by decide)).1⟩

/-- C5 (non-blocking exit). `main` receives from `doExit` at most once, and
exactly once on a run that passed validation and has exited. When `main`
stands at the receive and a deposit has been made, its receive is enabled,
the report follows and `main` returns with status 0, the received value being
the only message logged; neither step looks at or changes the position of
either goroutine, and after the return nothing moves any more. -/
theorem nonblocking_exit (p : Program) (s : State) (hr : Reachable p s) :
    s.received.length ≤ 1 ∧
    (∀ code, s.mainPc = .exited code → p.passes → s.received.length = 1) ∧
    (s.mainPc = .recv → s.deposits ≠ [] →
      ∃ ev s1 s2, step p s .main = some s1 ∧ s1.mainPc = .report ev ∧
        step p s1 .main = some s2 ∧ s2.mainPc = .exited 0 ∧
        s2.received = [ev] ∧ s2.logged = [(Level.warn, "shutdown: " ++ fmtS ev)] ∧
        s2.watcherPc = s.watcherPc ∧ s2.runnerPc = s.runnerPc ∧
        ∀ a, step p s2 a = none) := by
  have h := inv_of_reachable hr
  refine ⟨?_, ?_, ?_⟩
  · rcases received_cases h with h0 | ⟨ev, hev⟩
    · simp [h0]
    · simp [hev]
  · intro code hpc hp
    have hm := h.main
    simp only [mainInv, hpc] at hm
    rcases hm with hm | hm | hm
    · have := hp.1
      simp [hm.2.2.1] at this
    · obtain ⟨e, he, _⟩ := hm.2.2.2
      have := hp.2
      simp [he] at this
    · obtain ⟨ev, hev, _⟩ := hm.2.2.2
      simp [hev]
  · intro hpc hdep
    have hm := h.main
    simp only [mainInv, hpc] at hm
    have hf := h.fifo
    rw [hm.2.1] at hf
    simp only [List.nil_append] at hf
    cases hq : s.doExit with
    | none => exact absurd (h.chanNone hq).2.2.1 hdep
    | some q =>
      cases q with
      | nil =>
        simp only [State.queue, hq, Option.getD_some, List.map_eq_nil_iff] at hf
        exact absurd hf hdep
      | cons ev rest =>
        refine ⟨ev, _, _, step_recv p s ev rest hpc hq, rfl, step_report p _ ev rfl, rfl, ?_, ?_,
          rfl, rfl, fun a => step_halted p _ 0 rfl a⟩
        · simp [hm.2.1]
        · simp [hm.2.2.1]

/-- Witness for C5: both roles have deposited and `main` stands at the
receive; one receive later `main` has one value. -/
theorem nonblocking_exit_witness :
    (runD okProgram bothSchedule).mainPc = .recv ∧
    (runD okProgram (bothSchedule ++ [.main, .main])).mainPc = .exited 0 ∧
    (runD okProgram (bothSchedule ++ [.main, .main])).received.length = 1 :=
  ⟨by decide, by decide,
    (nonblocking_exit okProgram (runD okProgram (bothSchedule ++ [.main, .main]))
      (reachable_runD _ _)).2.1 0 (by decide) ⟨rfl, rfl⟩⟩

theorem step_ctxCancelled {p : Program} {s s' : State} (h : Inv p s) (a : Action)
    (hs : step p s a = some s') (hc : s.ctxCancelled = true) : s'.ctxCancelled = true := by
  have hctx : s.ctx ≠ none := by
    intro hn
    simp [State.ctxCancelled, hn] at hc
  have hmap : ∀ t : State, t.ctx = s.ctx.map CancelCtx.cancel → t.ctxCancelled = true := by
    intro t ht
    cases hsc : s.ctx with
    | none => exact absurd hsc hctx
    | some c => simp [State.ctxCancelled, ht, hsc, cancel_cancelled]
  have hsame : ∀ t : State, t.ctx = s.ctx → t.ctxCancelled = true := by
    intro t ht
    simpa [State.ctxCancelled, ht] using hc
  unfold step at hs
  split at hs
  · cases hs
  · cases a with
    | main =>
      have hm := h.main
      simp only [stepMain] at hs
      split at hs <;> rename_i hpc <;> simp only [mainInv, hpc] at hm
      all_goals (try split at hs)
      all_goals (first | cases hs | skip)
      all_goals (first | exact hsame _ rfl | exact absurd hm.1 hctx)
    | watcher =>
      simp only [stepWatcher, sendStep, cancelStep] at hs
      split at hs
      all_goals (try split at hs)
      all_goals (try split at hs)
      all_goals (first | cases hs | skip)
      all_goals (first | exact hsame _ rfl | exact hmap _ rfl)
    | runner =>
      simp only [stepRunner, sendStep, cancelStep] at hs
      split at hs
      all_goals (try split at hs)
      all_goals (try split at hs)
      all_goals (first | cases hs | skip)
      all_goals (first | exact hsame _ rfl | exact hmap _ rfl)
    | startReturns r =>
      simp only [stepStartReturns] at hs
      split at hs
      all_goals (first | cases hs | skip)
      all_goals exact hsame _ rfl
    | deliver sig =>
      simp only [stepDeliver] at hs
      split at hs
      all_goals (try split at hs)
      all_goals (try split at hs)
      all_goals (first | cases hs | skip)
      all_goals exact hsame _ rfl

/-- C6 (exactly-once cancellation). For every sequence of `cancel()`
requests applied to a fresh context: the context goes from live to cancelled
0 times for the empty sequence and exactly once otherwise, it is cancelled
exactly when the sequence is non-empty, the state reached at the first
request is the state after any further requests, and a further request leaves
it unchanged. In the program the two roles issue at most two requests, the
context is the fresh one after exactly those requests, it has gone to
cancelled at most once, and no step takes a cancelled context back to live. -/
theorem exactly_once_cancellation :
    (∀ reqs : List Role,
      (cancelAll CancelCtx.fresh reqs).closes = (if reqs = [] then 0 else 1) ∧
      ((cancelAll CancelCtx.fresh reqs).cancelled = true ↔ reqs ≠ [])) ∧
    (∀ (r : Role) (reqs more : List Role),
      cancelAll CancelCtx.fresh (r :: reqs ++ more) = cancelAll CancelCtx.fresh [r] ∧
      (cancelAll CancelCtx.fresh (r :: reqs)).cancel = cancelAll CancelCtx.fresh (r :: reqs)) ∧
    (∀ (p : Program) (s : State), Reachable p s →
      s.cancelReqs.length ≤ 2 ∧
      (∀ c, s.ctx = some c → c = cancelAll CancelCtx.fresh s.cancelReqs ∧ c.closes ≤ 1) ∧
      ∀ a s', step p s a = some s' → s.ctxCancelled = true → s'.ctxCancelled = true) := by
  refine ⟨fun reqs => ?_, fun r reqs more => ?_, fun p s hr => ?_⟩
  · cases reqs with
    | nil => simp [cancelAll, CancelCtx.fresh, CancelCtx.cancelled]
    | cons x rest => simp [cancelAll_fresh_cons, CancelCtx.cancelled]
  · refine ⟨?_, ?_⟩
    · rw [List.cons_append, cancelAll_fresh_cons, cancelAll_fresh_cons]
    · rw [cancelAll_fresh_cons]
      rfl
  · have h := inv_of_reachable hr
    refine ⟨role_nodup_length h.reqNodup, fun c hc => ?_, fun a s' hs hc =>
      step_ctxCancelled h a hs hc⟩
    have hv := h.ctxVal c hc
    refine ⟨hv, ?_⟩
    rw [hv]
    cases s.cancelReqs with
    | nil => simp [cancelAll, CancelCtx.fresh]
    | cons x rest => simp [cancelAll_fresh_cons]

/-- Witness for C6: both roles have called `cancel()`, the runner first. -/
theorem exactly_once_cancellation_witness :
    (runD okProgram bothSchedule).cancelReqs = [Role.runner, Role.watcher] ∧
    (runD okProgram bothSchedule).ctx = some { err := some "context canceled", closes := 1 } ∧
    (runD okProgram bothSchedule).cancelReqs.length ≤ 2 :=
  ⟨by decide, by decide,
    (exactly_once_cancellation.2.2 okProgram (runD okProgram bothSchedule)
      (reachable_runD _ _)).1⟩

/-- Counterexample to C7 as stated: on a validated run without `--version`
SIGINT arrives while `app.Start` is running and `signal.Notify` has not been
performed; the process is ended by the signal, its status is not 0. On a run
whose validation fails a signal arriving before `main` has validated ends the
process as well, its status is not 1. -/
theorem exit_status_counterexample :
    okProgram.flags.showVersion = false ∧
    okProgram.validate (mkConfig okProgram.flags) = none ∧
    (runD okProgram earlySignalSchedule).ending = some (.signal .SIGINT) ∧
    (¬ ∀ s, Reachable okProgram s → ∀ e, s.ending = some e →
      (e = .status 1 ↔ okProgram.validate (mkConfig okProgram.flags) ≠ none) ∧
      (okProgram.validate (mkConfig okProgram.flags) = none → e = .status 0)) ∧
    badProgram.flags.showVersion = false ∧
    badProgram.validate (mkConfig badProgram.flags) ≠ none ∧
    (runD badProgram [.main, .deliver .SIGTERM]).ending = some (.signal .SIGTERM) := by
  refine ⟨rfl, rfl, by decide, fun h => ?_, rfl, by decide, by decide⟩
  have := (h (runD okProgram earlySignalSchedule) (reachable_runD _ _)
    (.signal .SIGINT) (by decide)).2 rfl
  cases this

/-- C7 as amended (exit-status policy). On a run without `--version`,
whenever `main` itself has ended the process (`os.Exit` or return) the status
is 1 exactly when `config.Validate()` returned an error, and 0 when validation
succeeded; from the report of any event whatsoever (a signal event, a workload
error or nil) the next step of `main` is the exit with status 0. The only
other ending is by a signal that arrived while `signal.Notify` had not been
performed. -/
theorem exit_status (p : Program) (hver : p.flags.showVersion = false) (s : State)
    (hr : Reachable p s) :
    (∀ code, s.mainPc = .exited code →
      (code = 1 ↔ p.validate (mkConfig p.flags) ≠ none) ∧
      (p.validate (mkConfig p.flags) = none → code = 0)) ∧
    (∀ ev, s.mainPc = .report ev →
      p.validate (mkConfig p.flags) = none ∧
      ∃ s', step p s .main = some s' ∧ s'.mainPc = .exited 0) ∧
    (∀ e, s.ending = some e →
      (e = .status 1 ∧ p.validate (mkConfig p.flags) ≠ none) ∨
      (e = .status 0 ∧ p.validate (mkConfig p.flags) = none) ∨
      (∃ sig, e = .signal sig ∧ s.registered = false ∧ sig ∈ s.unhandled)) := by
  have h := inv_of_reachable hr
  have hm := h.main
  have hcode : ∀ code, s.mainPc = .exited code →
      (code = 1 ∧ p.validate (mkConfig p.flags) ≠ none) ∨
      (code = 0 ∧ p.validate (mkConfig p.flags) = none) := by
    intro code hpc
    simp only [mainInv, hpc, Program.passes, hver] at hm
    rcases hm with hm | hm | hm
    · simp at hm
    · obtain ⟨e, he, _⟩ := hm.2.2.2
      exact Or.inl ⟨hm.2.1, by simp [he]⟩
    · exact Or.inr ⟨hm.2.1, hm.2.2.1.2⟩
  refine ⟨fun code hpc => ?_, fun ev hpc => ?_, fun e he => ?_⟩
  · rcases hcode code hpc with ⟨hc, hv⟩ | ⟨hc, hv⟩
    · exact ⟨⟨fun _ => hv, fun _ => hc⟩, fun hn => absurd hn hv⟩
    · subst hc
      exact ⟨⟨fun h01 => absurd h01 (by decide), fun hne => absurd hv hne⟩, fun _ => rfl⟩
  · simp only [mainInv, hpc] at hm
    exact ⟨hm.2.2.2.2, _, step_report p s ev hpc, rfl⟩
  · cases hmp : s.mainPc with
    | exited code =>
      simp only [State.ending, hmp, Option.some.injEq] at he
      subst he
      rcases hcode code hmp with ⟨hc, hv⟩ | ⟨hc, hv⟩
      · exact Or.inl ⟨by rw [hc], hv⟩
      · exact Or.inr (Or.inl ⟨by rw [hc], hv⟩)
    | killed sig =>
      simp only [State.ending, hmp, Option.some.injEq] at he
      subst he
      exact Or.inr (Or.inr ⟨sig, rfl, kill_unregistered hr sig hmp⟩)
    | _ => simp [State.ending, hmp] at he

/-- Witness for C7: a signal won and `main` has returned; the status is not 1. -/
theorem exit_status_witness :
    (runD okProgram (signalSchedule ++ [.main])).mainPc = .exited 0 ∧
    (runD okProgram (signalSchedule ++ [.main])).deposits =
      [(Role.watcher, some "got terminated")] ∧
    ((0 : Nat) = 1 ↔ okProgram.validate (mkConfig okProgram.flags) ≠ none) :=
  ⟨by decide, by decide,
    ((exit_status okProgram rfl (runD okProgram (signalSchedule ++ [.main]))
      (reachable_runD _ _)).1 0 (by decide)).1⟩

/-- Counterexample to C8 as stated: no signal arrives, `app.Start` returns
nil, `main` exits with status 0, and the one message it has reported is
`shutdown: %!s(<nil>)`; neither that message nor the formatted event is the
text `workload stopped: nil`, and the message does not contain it. -/
theorem nil_workload_counterexample :
    (runD okProgram nilSchedule).signals = [] ∧
    (runD okProgram nilSchedule).startResults = [none] ∧
    (runD okProgram nilSchedule).mainPc = .exited 0 ∧
    (runD okProgram nilSchedule).logged = [(Level.warn, "shutdown: %!s(<nil>)")] ∧
    "shutdown: %!s(<nil>)" ≠ "workload stopped: nil" ∧
    fmtS none ≠ "workload stopped: nil" ∧
    ¬ ("workload stopped: nil".data <:+: "shutdown: %!s(<nil>)".data) := by
  decide

/-- C8 as amended: when no signal has arrived and `app.Start` has returned
nil, an exit of `main` has status 0, the one value received is the runner's
nil, the only deposit, and the one message reported is the prefix
`shutdown: ` followed by that value formatted with `%s`. -/
theorem nil_workload_report (p : Program) (s : State) (hr : Reachable p s)
    (hsig : s.signals = []) (hres : s.startResults = [none]) (code : Nat)
    (hpc : s.mainPc = .exited code) :
    code = 0 ∧ s.received = [none] ∧ s.deposits = [(Role.runner, none)] ∧
    s.logged = [(Level.warn, "shutdown: " ++ fmtS none)] := by
  have h := inv_of_reachable hr
  have hm := h.main
  have hrun := h.runner
  simp only [mainInv, hpc] at hm
  have hidle : s.ctx = none → False := by
    intro hn
    have := (h.chanNone (h.ctxNone hn)).2.1
    simp only [runnerInv, this] at hrun
    simp [hrun] at hres
  rcases hm with hm | hm | hm
  · exact (hidle hm.1).elim
  · exact (hidle hm.1).elim
  · obtain ⟨ev, hev, hl⟩ := hm.2.2.2
    have hf := h.fifo
    rw [hev] at hf
    have hnw : ∀ x, (Role.watcher, x) ∉ s.deposits := by
      intro x hx
      obtain ⟨sig, hs, _⟩ := h.depWatcher x hx
      simp [hsig] at hs
    have hnd := h.depNodup
    cases hd : s.deposits with
    | nil => simp [hd] at hf
    | cons d rest =>
      obtain ⟨r, x⟩ := d
      rw [hd] at hf hnd
      simp only [List.map_cons, List.singleton_append, List.cons.injEq] at hf
      have hx : x = ev := hf.1
      have hr' : r = Role.runner := by
        cases r with
        | runner => rfl
        | watcher => exact absurd (by simp [hd]) (hnw x)
      subst hr'
      have hev' : ev = none := by
        have := h.depRunner x (by simp [hd])
        rw [hres] at this
        simp only [List.cons.injEq, and_true] at this
        rw [← hx]
        exact this.symm
      have hrest : rest = [] := by
        cases rest with
        | nil => rfl
        | cons d2 rest2 =>
          obtain ⟨r2, x2⟩ := d2
          simp only [List.map_cons, List.nodup_cons, List.mem_cons, not_or] at hnd
          cases r2 with
          | runner => exact absurd rfl hnd.1.1
          | watcher => exact absurd (by simp [hd]) (hnw x2)
      subst hev'
      refine ⟨hm.2.1, hev, ?_, hl⟩
      rw [hrest, hx]

/-- Witness for C8 as amended: the run of the scenario. -/
theorem nil_workload_report_witness :
    (runD okProgram nilSchedule).signals = [] ∧
    (runD okProgram nilSchedule).startResults = [none] ∧
    (runD okProgram nilSchedule).logged = [(Level.warn, "shutdown: " ++ fmtS none)] :=
  ⟨by decide, by decide,
    (nil_workload_report okProgram (runD okProgram nilSchedule) (reachable_runD _ _)
      (by decide) (by decide) 0 (by decide)).2.2.2⟩

/-- Counterexample to C9 as stated: `app.Start` has begun running while
`signal.Notify` has not been performed, and a signal delivered at that point
never reaches the channel `c`. -/
theorem registration_counterexample :
    (¬ ∀ s, Reachable okProgram s →
      (s.runnerPc = .blocked ∨ s.watcherPc = .blocked) → s.registered = true) ∧
    (runD okProgram earlyRunnerSchedule).runnerPc = .blocked ∧
    (runD okProgram earlyRunnerSchedule).registered = false ∧
    (runD okProgram (earlyRunnerSchedule ++ [.deliver .SIGINT])).unhandled = [Signal.SIGINT] ∧
    (runD okProgram (earlyRunnerSchedule ++ [.deliver .SIGINT])).sigChan = none := by
  refine ⟨fun h => ?_, by decide, by decide, by decide, by decide⟩
  have := h (runD okProgram earlyRunnerSchedule) (reachable_runD _ _) (Or.inl (by decide))
  revert this
  decide

theorem registered_sigChan {p : Program} {s : State} (h : Inv p s)
    (hreg : s.registered = true) : ∃ q, s.sigChan = some q := by
  have hw := h.watcher
  cases hq : s.sigChan with
  | some q => exact ⟨q, rfl⟩
  | none =>
    cases hwp : s.watcherPc <;> simp only [watcherInv, hwp] at hw <;> simp_all

theorem step_deliver_empty (p : Program) (s : State) (sig : Signal)
    (hh : s.halted = false) (hreg : s.registered = true) (hq : s.sigChan = some []) :
    step p s (.deliver sig) =
      some { s with sigChan := some ([] ++ [sig]), signals := s.signals ++ [sig] } := by
  simp [step, hh, stepDeliver, hreg, hq, sigChanCap]

theorem step_deliver_full (p : Program) (s : State) (sig sg : Signal) (rest : List Signal)
    (hh : s.halted = false) (hreg : s.registered = true) (hq : s.sigChan = some (sg :: rest)) :
    step p s (.deliver sig) = some { s with signals := s.signals ++ [sig] } := by
  simp [step, hh, stepDeliver, hreg, hq, sigChanCap]

/-- C9 as amended: whenever the Signal Watcher is blocked waiting, the
channel `c` exists and `signal.Notify` has been performed; and once the
registration is in place a signal delivered to the running process is not
missed: after the delivery `c` holds a signal for the watcher to receive and
nothing has been added to the unhandled signals. -/
theorem registration_before_wait (p : Program) (s : State) (hr : Reachable p s) :
    (s.watcherPc = .blocked → s.registered = true ∧ s.sigChan ≠ none) ∧
    (s.registered = true → s.halted = false → ∀ sig,
      ∃ s' sg rest, step p s (.deliver sig) = some s' ∧ s'.sigChan = some (sg :: rest) ∧
        s'.unhandled = s.unhandled ∧ s'.watcherPc = s.watcherPc) := by
  have h := inv_of_reachable hr
  refine ⟨fun hpc => ?_, fun hreg hh sig => ?_⟩
  · have hw := h.watcher
    simp only [watcherInv, hpc] at hw
    exact ⟨hw.2, hw.1⟩
  · obtain ⟨q, hq⟩ := registered_sigChan h hreg
    cases q with
    | nil =>
      exact ⟨_, sig, [], step_deliver_empty p s sig hh hreg hq, rfl, rfl, rfl⟩
    | cons sg rest =>
      exact ⟨_, sg, rest, step_deliver_full p s sig sg rest hh hreg hq, hq, rfl, rfl⟩

/-- Witness for C9 as amended: the watcher has registered and is blocked. -/
theorem registration_before_wait_witness :
    (runD okProgram (startup ++ [.watcher, .watcher])).watcherPc = .blocked ∧
    (runD okProgram (startup ++ [.watcher, .watcher])).registered = true ∧
    (runD okProgram (startup ++ [.watcher, .watcher])).sigChan ≠ none :=
  ⟨by decide,
    (registration_before_wait okProgram (runD okProgram (startup ++ [.watcher, .watcher]))
      (reachable_runD _ _)).1 (by decide)⟩

/-- C10, the defect: the flags `idle-xacts` and `wait-xacts` are both bound
to `NOISIA_IDLE_XACTS`, so the names are not pairwise distinct and that one
variable sets the two fields `IdleXacts` and `WaitXacts`; the name the scheme
of the table gives for `wait-xacts`, `NOISIA_WAIT_XACTS`, which its two
sub-flags extend, is bound to no flag. -/
theorem envar_shared :
    (findFlag "idle-xacts").bind (fun d => d.envar) = some "NOISIA_IDLE_XACTS" ∧
    (findFlag "wait-xacts").bind (fun d => d.envar) = some "NOISIA_IDLE_XACTS" ∧
    ¬ envarNames.Nodup ∧
    envBound "NOISIA_IDLE_XACTS" = ["IdleXacts", "WaitXacts"] ∧
    (findFlag "idle-xacts").bind (fun d => flagValue d [] []) = some "false" ∧
    (findFlag "wait-xacts").bind (fun d => flagValue d [] []) = some "false" ∧
    (findFlag "idle-xacts").bind (fun d => flagValue d [] [("NOISIA_IDLE_XACTS", "true")]) =
      some "true" ∧
    (findFlag "wait-xacts").bind (fun d => flagValue d [] [("NOISIA_IDLE_XACTS", "true")]) =
      some "true" ∧
    schemeName "wait-xacts" = "NOISIA_WAIT_XACTS" ∧
    schemeName "wait-xacts.locktime-min" = "NOISIA_WAIT_XACTS_LOCKTIME_MIN" ∧
    (findFlag "wait-xacts.locktime-min").bind (fun d => d.envar) =
      some (schemeName "wait-xacts.locktime-min") ∧
    "NOISIA_WAIT_XACTS" ∉ envarNames ∧
    envBound "NOISIA_WAIT_XACTS" = [] := by
  decide

end Noisia
